import Mathlib

/-!
Verification development for the MahjongSoulRankAnalysis repository
(`main.py`: fetch-and-ingest pipeline; `analysis.py`: reporting commands).

The Python source is shallowly embedded: loosely typed JSON payload fields
become `Option Loose` (a present field either coerces to an integer or makes
`int(…)` raise), the SQLite `games` table becomes a list of rows keyed by the
`id` primary key, and the stateful loops become structural recursions that
return the final state together with the counters the source maintains.
Python `//` (floor division) is embedded as Lean `Int` division `/`, which is
Euclidean division and agrees with floor division for the positive divisors
(1000, 10) used by the source.
-/

/-- A loosely typed JSON field value as seen by `int(…)` in `main.py`:
either it coerces to an integer, or the coercion raises. -/
inductive Loose where
  | intv (n : Int)
  | bad
deriving DecidableEq

/-- `int(x)` for a present field value: `some n` on success, `none` when the
coercion raises (the surrounding `try` in `extract_row` then rejects). -/
def coerce : Loose → Option Int
  | .intv n => some n
  | .bad => none

/-- `int(p.get(field, 0))`: an absent field defaults to `0`, a present field
is coerced (and may raise). Mirrors the player-field loop of `extract_row`. -/
def coerceD : Option Loose → Option Int
  | none => some 0
  | some v => coerce v

/-- One entry of the raw `players` array (`main.py`, `extract_row`). -/
structure RawPlayer where
  level : Option Loose
  score : Option Loose
  gradingScore : Option Loose
deriving DecidableEq

/-- One raw game record from the API, with the fields `extract_row` reads.
`idField` is the payload's `_id`; string identifier fields may be present
and empty, which Python treats as falsy. -/
structure RawGame where
  idField : Option String
  uuid : Option String
  modeId : Option Loose
  startTime : Option Loose
  endTime : Option Loose
  players : Option (List RawPlayer)
deriving DecidableEq

/-- Python truthiness of an optional string: `None` and `""` are falsy. -/
def truthy : Option String → Option String
  | none => none
  | some s => if s = "" then none else some s

/-- `gid = game.get("_id") or game.get("uuid")` followed by the `if not gid`
check in `extract_row`: `some` exactly when the resulting value is truthy. -/
def getGid (g : RawGame) : Option String :=
  match truthy g.idField with
  | some s => some s
  | none => truthy g.uuid

/-- `game.get("_id") or game.get("uuid")` as a raw Python value (possibly an
empty string), used by `insert_games_capped` for its seen-identifier check,
which only tests `gid is not None`. -/
def gidRaw (g : RawGame) : Option String :=
  match g.idField with
  | none => g.uuid
  | some s => if s = "" then g.uuid else some s

/-- Mode resolution in `extract_row`: `int(modeId)` when present (a failing
coercion rejects), otherwise the caller-supplied override; `none` rejects. -/
def resolveMode (g : RawGame) (modeOverride : Option Int) : Option Int :=
  match g.modeId with
  | some v => coerce v
  | none => modeOverride

/-- Start-time resolution in `extract_row`:
`int(game.get("startTime") if game.get("startTime") is not None else game["endTime"])`.
A missing `startTime` falls back to `endTime`; a missing `endTime` then raises
(`KeyError`), and a failing coercion raises; both reject the record. -/
def resolveStart (g : RawGame) : Option Int :=
  match g.startTime with
  | some v => coerce v
  | none =>
    match g.endTime with
    | some v => coerce v
    | none => none

/-- The three coerced metrics of one player (level, score, gradingScore),
`none` when any present field fails to coerce. -/
def coercePlayer (p : RawPlayer) : Option (Int × Int × Int) :=
  match coerceD p.level, coerceD p.score, coerceD p.gradingScore with
  | some l, some s, some gr => some (l, s, gr)
  | _, _, _ => none

/-- The sort key `(-scores[i], i)` of `extract_row`, as a strict
lexicographic comparison: `keyLT s a b` says slot `a` sorts strictly before
slot `b` (higher score first, earlier slot first on ties). -/
def keyLT (s : Fin 4 → Int) (a b : Fin 4) : Prop :=
  -(s a) < -(s b) ∨ (-(s a) = -(s b) ∧ a.val < b.val)

instance keyLT.instDecidableRel (s : Fin 4 → Int) : DecidableRel (keyLT s) := fun a b =>
  inferInstanceAs (Decidable (-(s a) < -(s b) ∨ (-(s a) = -(s b) ∧ a.val < b.val)))

/-- The reflexive closure of `keyLT`, the total order used to sort the four
slot indices (`order = sorted(range(4), key=…)` in `extract_row`; the keys
are pairwise distinct, so any comparison sort yields this unique result). -/
def keyLE (s : Fin 4 → Int) (a b : Fin 4) : Prop :=
  keyLT s a b ∨ a = b

instance keyLE.instDecidableRel (s : Fin 4 → Int) : DecidableRel (keyLE s) := fun a b =>
  inferInstanceAs (Decidable (keyLT s a b ∨ a = b))

/-- `order = sorted(range(4), key=lambda i: tie_keys[i])` in `extract_row`. -/
def sortOrder (s : Fin 4 → Int) : List (Fin 4) :=
  List.insertionSort (keyLE s) (List.finRange 4)

/-- The write-back loop `for pos, idx in enumerate(order): ranks[idx] = pos + 1`
of `extract_row`, starting from `ranks = [0, 0, 0, 0]`. -/
def writeRanks : List (Fin 4) → Nat → (Fin 4 → Nat) → Fin 4 → Nat
  | [], _, r => r
  | a :: t, pos, r => writeRanks t (pos + 1) (Function.update r a (pos + 1))

/-- The placement ranks computed by `extract_row` from the four scores:
sort slots by `(-score, slot index)` and assign 1-based positions. -/
def extractRanks (s : Fin 4 → Int) : Fin 4 → Nat :=
  writeRanks (sortOrder s) 0 (fun _ => 0)

/-- The 19-field tuple `extract_row` returns, in `INSERT_COLUMNS` order
(`id`, `mode`, `startTime`, then level/score/gradingScore/rank per player). -/
structure Row where
  id : String
  mode : Int
  startTime : Int
  player1_level : Int
  player1_score : Int
  player1_gradingScore : Int
  player1_rank : Nat
  player2_level : Int
  player2_score : Int
  player2_gradingScore : Int
  player2_rank : Nat
  player3_level : Int
  player3_score : Int
  player3_gradingScore : Int
  player3_rank : Nat
  player4_level : Int
  player4_score : Int
  player4_gradingScore : Int
  player4_rank : Nat
deriving DecidableEq

/-- The four score columns of a row, by slot. -/
def Row.score (r : Row) : Fin 4 → Int :=
  ![r.player1_score, r.player2_score, r.player3_score, r.player4_score]

/-- The four rank columns of a row, by slot. -/
def Row.rank (r : Row) : Fin 4 → Nat :=
  ![r.player1_rank, r.player2_rank, r.player3_rank, r.player4_rank]

/-- The four level columns of a row, by slot. -/
def Row.level (r : Row) : Fin 4 → Int :=
  ![r.player1_level, r.player2_level, r.player3_level, r.player4_level]

/-- The four gradingScore columns of a row, by slot. -/
def Row.grade (r : Row) : Fin 4 → Int :=
  ![r.player1_gradingScore, r.player2_gradingScore, r.player3_gradingScore, r.player4_gradingScore]

/-- Assembles the returned tuple of `extract_row` from the coerced pieces;
the rank fields are computed from the scores by `extractRanks`. -/
def buildRow (gid : String) (mode st : Int) (l s gr : Fin 4 → Int) : Row :=
  { id := gid, mode := mode, startTime := st
    player1_level := l 0, player1_score := s 0, player1_gradingScore := gr 0
    player1_rank := extractRanks s 0
    player2_level := l 1, player2_score := s 1, player2_gradingScore := gr 1
    player2_rank := extractRanks s 1
    player3_level := l 2, player3_score := s 2, player3_gradingScore := gr 2
    player3_rank := extractRanks s 2
    player4_level := l 3, player4_score := s 3, player4_gradingScore := gr 3
    player4_rank := extractRanks s 3 }

/-- `extract_row` from `main.py`: normalize one raw record or reject (`none`).
Checks, in source order: truthy identifier, resolvable mode, resolvable start
time, `players` (defaulting to `[]` when absent or falsy) of length exactly 4,
then coercion of the twelve per-player metrics with absent fields defaulting
to 0. Any raised coercion rejects the whole record. -/
def extract_row (g : RawGame) (modeOverride : Option Int) : Option Row :=
  match getGid g with
  | none => none
  | some gid =>
    match resolveMode g modeOverride with
    | none => none
    | some mode =>
      match resolveStart g with
      | none => none
      | some st =>
        match g.players.getD [] with
        | [p0, p1, p2, p3] =>
          match coercePlayer p0, coercePlayer p1, coercePlayer p2, coercePlayer p3 with
          | some a0, some a1, some a2, some a3 =>
            some (buildRow gid mode st
              ![a0.1, a1.1, a2.1, a3.1]
              ![a0.2.1, a1.2.1, a2.2.1, a3.2.1]
              ![a0.2.2, a1.2.2, a2.2.2, a3.2.2])
          | _, _, _, _ => none
        | _ => none

/-! ### The rank function: counting characterization of the sort position -/

/-- Rank of a slot as one plus the number of slots that sort strictly before
it. Both the Python sort in `extract_row` and the SQL expression `rank_expr`
of the schema migration are proved equal to this. -/
def rankOf (s : Fin 4 → Int) (i : Fin 4) : Nat :=
  1 + (Finset.univ.filter (fun j => keyLT s j i)).card

theorem keyLT_irrefl (s : Fin 4 → Int) (a : Fin 4) : ¬ keyLT s a a := by
  simp [keyLT]

theorem keyLT_asymm (s : Fin 4 → Int) (a b : Fin 4) (h : keyLT s a b) : ¬ keyLT s b a := by
  rcases h with h | ⟨h1, h2⟩ <;> rintro (h3 | ⟨h4, h5⟩) <;> omega

theorem keyLT_trans (s : Fin 4 → Int) (a b c : Fin 4)
    (hab : keyLT s a b) (hbc : keyLT s b c) : keyLT s a c := by
  rcases hab with h | ⟨h1, h2⟩ <;> rcases hbc with h3 | ⟨h4, h5⟩ <;>
    unfold keyLT <;> omega

theorem keyLT_trichotomy (s : Fin 4 → Int) (a b : Fin 4) :
    keyLT s a b ∨ a = b ∨ keyLT s b a := by
  rcases lt_trichotomy (-(s a)) (-(s b)) with h | h | h
  · exact Or.inl (Or.inl h)
  · rcases Nat.lt_trichotomy a.val b.val with h2 | h2 | h2
    · exact Or.inl (Or.inr ⟨h, h2⟩)
    · exact Or.inr (Or.inl (Fin.ext h2))
    · exact Or.inr (Or.inr (Or.inr ⟨h.symm, h2⟩))
  · exact Or.inr (Or.inr (Or.inl h))

theorem keyLE_total (s : Fin 4 → Int) : ∀ a b : Fin 4, keyLE s a b ∨ keyLE s b a := by
  intro a b
  rcases keyLT_trichotomy s a b with h | h | h
  · exact Or.inl (Or.inl h)
  · exact Or.inl (Or.inr h)
  · exact Or.inr (Or.inl h)

theorem keyLE_trans (s : Fin 4 → Int) : ∀ a b c : Fin 4,
    keyLE s a b → keyLE s b c → keyLE s a c := by
  rintro a b c (hab | rfl) (hbc | rfl)
  · exact Or.inl (keyLT_trans s a b c hab hbc)
  · exact Or.inl hab
  · exact Or.inl hbc
  · exact Or.inr rfl

/-- The sorted order is a permutation of the four slot indices. -/
theorem sortOrder_perm (s : Fin 4 → Int) : List.Perm (sortOrder s) (List.finRange 4) :=
  List.perm_insertionSort (keyLE s) (List.finRange 4)

theorem sortOrder_nodup (s : Fin 4 → Int) : (sortOrder s).Nodup :=
  (sortOrder_perm s).nodup_iff.mpr (List.nodup_finRange 4)

theorem mem_sortOrder (s : Fin 4 → Int) (i : Fin 4) : i ∈ sortOrder s :=
  (sortOrder_perm s).mem_iff.mpr (List.mem_finRange i)

/-- The sorted order is strictly sorted by the key: the keys of distinct
slots are distinct, so sortedness plus nodup gives pairwise strictness. -/
theorem sortOrder_pairwise (s : Fin 4 → Int) : (sortOrder s).Pairwise (keyLT s) := by
  have htot : IsTotal (Fin 4) (keyLE s) := ⟨keyLE_total s⟩
  have htrans : IsTrans (Fin 4) (keyLE s) := ⟨keyLE_trans s⟩
  have hsorted : (sortOrder s).Pairwise (keyLE s) :=
    List.sorted_insertionSort (keyLE s) (List.finRange 4)
  have hne : (sortOrder s).Pairwise (fun a b : Fin 4 => a ≠ b) := sortOrder_nodup s
  refine (hsorted.and hne).imp ?_
  rintro a b ⟨hle | rfl, hab⟩
  · exact hle
  · exact absurd rfl hab

/-- In a strictly sorted list, the number of elements sorting strictly before
a member equals its index. -/
theorem countP_eq_indexOf (s : Fin 4 → Int) :
    ∀ (l : List (Fin 4)), l.Pairwise (keyLT s) →
      ∀ i ∈ l, l.countP (fun j => decide (keyLT s j i)) = l.indexOf i := by
  intro l
  induction l with
  | nil => intro _ i hi; simp at hi
  | cons a t ih =>
    intro hp i hi
    have hpa : ∀ b ∈ t, keyLT s a b := (List.pairwise_cons.mp hp).1
    have hpt : t.Pairwise (keyLT s) := (List.pairwise_cons.mp hp).2
    rcases List.mem_cons.mp hi with rfl | hit
    · rw [List.indexOf_cons_self]
      rw [List.countP_cons_of_neg _ _ (by simp [keyLT_irrefl s i])]
      rw [List.countP_eq_zero.mpr]
      intro b hb
      simp only [decide_eq_true_eq]
      exact keyLT_asymm s i b (hpa b hb)
    · have hne : i ≠ a := by
        rintro rfl
        exact keyLT_irrefl s i (hpa i hit)
      rw [List.indexOf_cons_ne _ (Ne.symm hne)]
      rw [List.countP_cons_of_pos _ _ (by simp [hpa i hit])]
      rw [ih hpt i hit]

/-- After the write-back loop, a slot not in the list keeps its old rank. -/
theorem writeRanks_not_mem (l : List (Fin 4)) (p : Nat) (r : Fin 4 → Nat) (i : Fin 4)
    (h : i ∉ l) : writeRanks l p r i = r i := by
  induction l generalizing p r with
  | nil => rfl
  | cons a t ih =>
    have hia : i ≠ a := fun he => h (he ▸ List.mem_cons_self a t)
    have hit : i ∉ t := fun he => h (List.mem_cons_of_mem a he)
    rw [writeRanks, ih _ _ hit, Function.update_noteq hia]

/-- After the write-back loop over a duplicate-free list, a member slot gets
one plus its (offset) position. -/
theorem writeRanks_mem (l : List (Fin 4)) (p : Nat) (r : Fin 4 → Nat) (i : Fin 4)
    (hnd : l.Nodup) (h : i ∈ l) : writeRanks l p r i = p + l.indexOf i + 1 := by
  induction l generalizing p r with
  | nil => simp at h
  | cons a t ih =>
    rcases List.mem_cons.mp h with rfl | hit
    · have hnt : i ∉ t := (List.nodup_cons.mp hnd).1
      rw [writeRanks, writeRanks_not_mem t _ _ i hnt, Function.update_same,
        List.indexOf_cons_self]
    · have hne : i ≠ a := by
        rintro rfl
        exact (List.nodup_cons.mp hnd).1 hit
      rw [writeRanks, ih _ _ (List.nodup_cons.mp hnd).2 hit,
        List.indexOf_cons_ne _ (Ne.symm hne)]
      omega

/-- Bridge between counting over `List.finRange 4` and a `Finset` filter. -/
theorem countP_finRange_eq_card (p : Fin 4 → Prop) [DecidablePred p] :
    (List.finRange 4).countP (fun j => decide (p j)) = (Finset.univ.filter p).card := by
  rw [Finset.card_filter, Fin.sum_univ_four]
  rw [show List.finRange 4 = [0, 1, 2, 3] from rfl]
  simp only [List.countP_cons, List.countP_nil, decide_eq_true_eq]
  rcases Classical.em (p 0) with h0 | h0 <;> rcases Classical.em (p 1) with h1 | h1 <;>
    rcases Classical.em (p 2) with h2 | h2 <;> rcases Classical.em (p 3) with h3 | h3 <;>
    simp [h0, h1, h2, h3]

/-- The rank `extract_row` assigns to a slot is one plus the number of slots
sorting strictly before it. -/
theorem extractRanks_eq_rankOf (s : Fin 4 → Int) (i : Fin 4) :
    extractRanks s i = rankOf s i := by
  have hmem : i ∈ sortOrder s := mem_sortOrder s i
  rw [extractRanks, writeRanks_mem _ _ _ _ (sortOrder_nodup s) hmem]
  rw [← countP_eq_indexOf s (sortOrder s) (sortOrder_pairwise s) i hmem]
  rw [(sortOrder_perm s).countP_eq]
  rw [countP_finRange_eq_card (fun j => keyLT s j i)]
  unfold rankOf
  omega

/-! ### Properties of the rank function -/

theorem rankOf_le_four (s : Fin 4 → Int) (i : Fin 4) : rankOf s i ≤ 4 := by
  have hsub : (Finset.univ.filter (fun j => keyLT s j i)) ⊆ Finset.univ.erase i := by
    intro j hj
    rcases Finset.mem_filter.mp hj with ⟨-, hlt⟩
    refine Finset.mem_erase.mpr ⟨?_, Finset.mem_univ j⟩
    rintro rfl
    exact keyLT_irrefl s j hlt
  have hcard : (Finset.univ.erase i).card = 3 := by
    rw [Finset.card_erase_of_mem (Finset.mem_univ i)]
    simp
  have := Finset.card_le_card hsub
  rw [hcard] at this
  unfold rankOf
  omega

theorem one_le_rankOf (s : Fin 4 → Int) (i : Fin 4) : 1 ≤ rankOf s i := by
  unfold rankOf
  omega

/-- Ranks are strictly monotone along the sort order. -/
theorem rankOf_strictMono (s : Fin 4 → Int) (i j : Fin 4) (h : keyLT s i j) :
    rankOf s i < rankOf s j := by
  have hss : (Finset.univ.filter (fun k => keyLT s k i)) ⊂
      (Finset.univ.filter (fun k => keyLT s k j)) := by
    refine Finset.ssubset_iff_of_subset ?_ |>.mpr ?_
    · intro k hk
      rcases Finset.mem_filter.mp hk with ⟨-, hlt⟩
      exact Finset.mem_filter.mpr ⟨Finset.mem_univ k, keyLT_trans s k i j hlt h⟩
    · refine ⟨i, Finset.mem_filter.mpr ⟨Finset.mem_univ i, h⟩, ?_⟩
      intro hmem
      exact keyLT_irrefl s i (Finset.mem_filter.mp hmem).2
  have := Finset.card_lt_card hss
  unfold rankOf
  omega

theorem rankOf_injective (s : Fin 4 → Int) : Function.Injective (rankOf s) := by
  intro i j hij
  by_contra hne
  rcases keyLT_trichotomy s i j with h | h | h
  · exact absurd hij (Nat.ne_of_lt (rankOf_strictMono s i j h))
  · exact hne h
  · exact absurd hij.symm (Nat.ne_of_lt (rankOf_strictMono s j i h))

/-- The four ranks are exactly `{1, 2, 3, 4}`: an injective map of the four
slots into a four-element target is onto. -/
theorem rankOf_image (s : Fin 4 → Int) :
    Finset.image (rankOf s) Finset.univ = ({1, 2, 3, 4} : Finset Nat) := by
  have hsub : Finset.image (rankOf s) Finset.univ ⊆ ({1, 2, 3, 4} : Finset Nat) := by
    intro n hn
    rcases Finset.mem_image.mp hn with ⟨i, -, rfl⟩
    have h1 := one_le_rankOf s i
    have h4 := rankOf_le_four s i
    simp only [Finset.mem_insert, Finset.mem_singleton]
    omega
  have hcard : (Finset.image (rankOf s) Finset.univ).card = 4 := by
    rw [Finset.card_image_of_injective _ (rankOf_injective s)]
    simp
  refine Finset.eq_of_subset_of_card_le hsub ?_
  rw [hcard]
  decide

/-- A slot with strictly the highest score receives rank 1. -/
theorem rankOf_eq_one_of_top (s : Fin 4 → Int) (i : Fin 4)
    (h : ∀ j, j ≠ i → s j < s i) : rankOf s i = 1 := by
  unfold rankOf
  rw [Finset.filter_eq_empty_iff.mpr, Finset.card_empty]
  intro j _
  rcases Classical.em (j = i) with rfl | hne
  · exact keyLT_irrefl s j
  · rintro (hlt | ⟨heq, -⟩)
    · exact absurd (h j hne) (by omega)
    · exact absurd (h j hne) (by omega)

/-- Equal scores: the earlier slot receives the strictly better rank. -/
theorem rankOf_tie (s : Fin 4 → Int) (i j : Fin 4) (hij : i.val < j.val)
    (heq : s i = s j) : rankOf s i < rankOf s j :=
  rankOf_strictMono s i j (Or.inr ⟨by omega, hij⟩)

/-! ### Inversion of `extract_row` -/

/-- Any row produced by `extract_row` carries ranks computed by
`extractRanks` from its own four scores, so rank depends only on the scores
and slot order. -/
theorem extract_row_rank_eq (g : RawGame) (mo : Option Int) (row : Row)
    (h : extract_row g mo = some row) : row.rank = extractRanks row.score := by
  have hext : ∀ (S : Fin 4 → Int), ![S 0, S 1, S 2, S 3] = S := by
    intro S
    funext k
    fin_cases k <;> simp
  unfold extract_row at h
  repeat' split at h
  any_goals exact Option.noConfusion h
  rw [Option.some.injEq] at h
  subst h
  funext i
  fin_cases i <;> simp [Row.rank, Row.score, buildRow, hext]

/-- Function-level version of `extractRanks_eq_rankOf`. -/
theorem extractRanks_fun_eq (s : Fin 4 → Int) : extractRanks s = rankOf s :=
  funext (extractRanks_eq_rankOf s)

/-- C1: For every raw record accepted by `extract_row`, the four rank values
of the produced row form exactly the set `{1, 2, 3, 4}` (a permutation: four
slots, four distinct values); a slot with strictly the highest score gets
rank 1; equal scores are resolved in favor of the smaller slot index; and the
ranks are a function of the four scores and slot order alone (in particular
independent of gradingScore and identifiers). -/
theorem claim_C1_rank_permutation (g : RawGame) (mo : Option Int) (row : Row)
    (h : extract_row g mo = some row) :
    Finset.image row.rank Finset.univ = ({1, 2, 3, 4} : Finset Nat)
    ∧ (∀ i : Fin 4, (∀ j, j ≠ i → row.score j < row.score i) → row.rank i = 1)
    ∧ (∀ i j : Fin 4, i.val < j.val → row.score i = row.score j → row.rank i < row.rank j)
    ∧ row.rank = extractRanks row.score := by
  have hr : row.rank = rankOf row.score := by
    rw [extract_row_rank_eq g mo row h, extractRanks_fun_eq]
  refine ⟨?_, ?_, ?_, by rw [hr, extractRanks_fun_eq]⟩
  · rw [hr]
    exact rankOf_image row.score
  · intro i hi
    rw [hr]
    exact rankOf_eq_one_of_top row.score i hi
  · intro i j hij heq
    rw [hr]
    exact rankOf_tie row.score i j hij heq

/-- A concrete accepted record: scores 25000, 45000, 5000, 25000 with a tie
between slots 1 and 4. -/
def gEx : RawGame :=
  { idField := some "w1", uuid := none, modeId := some (Loose.intv 12)
    startTime := some (Loose.intv 1700000000), endTime := none
    players := some
      [⟨some (Loose.intv 10301), some (Loose.intv 25000), some (Loose.intv 10)⟩,
       ⟨some (Loose.intv 10302), some (Loose.intv 45000), some (Loose.intv 20)⟩,
       ⟨some (Loose.intv 10303), some (Loose.intv 5000), some (Loose.intv 30)⟩,
       ⟨some (Loose.intv 10304), some (Loose.intv 25000), some (Loose.intv 40)⟩] }

/-- The row `extract_row` produces for `gEx`: ranks 2, 1, 4, 3. -/
def rowEx : Row :=
  { id := "w1", mode := 12, startTime := 1700000000
    player1_level := 10301, player1_score := 25000, player1_gradingScore := 10
    player1_rank := 2
    player2_level := 10302, player2_score := 45000, player2_gradingScore := 20
    player2_rank := 1
    player3_level := 10303, player3_score := 5000, player3_gradingScore := 30
    player3_rank := 4
    player4_level := 10304, player4_score := 25000, player4_gradingScore := 40
    player4_rank := 3 }

/-- Witness for C1 at the concrete record `gEx`. -/
theorem claim_C1_rank_permutation_witness :
    extract_row gEx (some 12) = some rowEx
    ∧ (Finset.image rowEx.rank Finset.univ = ({1, 2, 3, 4} : Finset Nat)
      ∧ (∀ i : Fin 4, (∀ j, j ≠ i → rowEx.score j < rowEx.score i) → rowEx.rank i = 1)
      ∧ (∀ i j : Fin 4, i.val < j.val → rowEx.score i = rowEx.score j →
          rowEx.rank i < rowEx.rank j)
      ∧ rowEx.rank = extractRanks rowEx.score) :=
  ⟨by decide, claim_C1_rank_permutation gEx (some 12) rowEx (by decide)⟩

/-! ### The schema migration's `rank_expr` (SQL) and its equivalence -/

/-- A dynamically typed SQLite cell value (the storage classes used by the
`games` table: NULL, INTEGER, TEXT). -/
inductive Val where
  | null
  | int (n : Int)
  | text (s : String)
deriving DecidableEq

/-- SQLite ordering of storage classes: NULL < INTEGER < TEXT. -/
def Val.storageClass : Val → Nat
  | .null => 0
  | .int _ => 1
  | .text _ => 2

/-- SQLite `a > b` as it appears in the migration's CASE terms: a comparison
against NULL is not true, integers compare numerically, and values of
different storage classes compare by class. -/
def sqlGt : Val → Val → Bool
  | .null, _ => false
  | _, .null => false
  | .int m, .int n => decide (n < m)
  | .text s, .text t => decide (t < s)
  | a, b => decide (b.storageClass < a.storageClass)

/-- SQLite `a = b` in the migration's CASE terms: NULL comparisons are not
true, and values of different storage classes are unequal. -/
def sqlEq : Val → Val → Bool
  | .int m, .int n => decide (m = n)
  | .text s, .text t => decide (s = t)
  | _, _ => false

/-- `rank_expr(player_idx)` from `ensure_schema` (`main.py`): one plus the
sum of CASE terms counting other slots with strictly greater score plus
earlier slots with equal score, evaluated on the four score cells of a row. -/
def rank_expr (s : Fin 4 → Val) (i : Fin 4) : Int :=
  1 + ((((List.finRange 4).filter (fun j => decide (j ≠ i))).map
          (fun j => if sqlGt (s j) (s i) then (1 : Int) else 0)).sum
    + (((List.finRange 4).filter (fun j => decide (j.val < i.val))).map
          (fun j => if sqlEq (s j) (s i) then (1 : Int) else 0)).sum)

theorem sum_map_ite_countP (p : Fin 4 → Bool) (l : List (Fin 4)) :
    ((l.map (fun j => if p j then (1 : Int) else 0)).sum) = l.countP p := by
  induction l with
  | nil => simp
  | cons a t ih =>
    rw [List.map_cons, List.sum_cons, List.countP_cons, ih]
    by_cases h : p a
    · simp [h]
      omega
    · simp [h]

/-- The relational rank formula agrees with the counting characterization of
the sort rank, on integer score cells. -/
theorem rank_expr_eq_rankOf (s : Fin 4 → Int) (i : Fin 4) :
    rank_expr (fun j => Val.int (s j)) i = (rankOf s i : Int) := by
  unfold rank_expr
  rw [sum_map_ite_countP, sum_map_ite_countP]
  rw [List.countP_filter, List.countP_filter]
  have hgt : (List.finRange 4).countP
      (fun j => sqlGt (Val.int (s j)) (Val.int (s i)) && decide (j ≠ i)) =
      (Finset.univ.filter (fun j : Fin 4 => s i < s j)).card := by
    rw [← countP_finRange_eq_card (fun j : Fin 4 => s i < s j)]
    refine List.countP_congr ?_
    intro j _
    simp only [sqlGt, Bool.and_eq_true, decide_eq_true_eq]
    constructor
    · rintro ⟨h1, -⟩
      exact h1
    · intro h1
      refine ⟨h1, ?_⟩
      rintro rfl
      exact lt_irrefl _ h1
  have heq : (List.finRange 4).countP
      (fun j => sqlEq (Val.int (s j)) (Val.int (s i)) && decide (j.val < i.val)) =
      (Finset.univ.filter (fun j : Fin 4 => s j = s i ∧ j.val < i.val)).card := by
    rw [← countP_finRange_eq_card (fun j : Fin 4 => s j = s i ∧ j.val < i.val)]
    refine List.countP_congr ?_
    intro j _
    simp [sqlEq]
  rw [hgt, heq]
  have hsplit : (Finset.univ.filter (fun j : Fin 4 => keyLT s j i)).card =
      (Finset.univ.filter (fun j : Fin 4 => s i < s j)).card
      + (Finset.univ.filter (fun j : Fin 4 => s j = s i ∧ j.val < i.val)).card := by
    have hiff : ∀ j : Fin 4, keyLT s j i ↔ (s i < s j ∨ (s j = s i ∧ j.val < i.val)) := by
      intro j
      unfold keyLT
      omega
    rw [Finset.filter_congr (fun j _ => hiff j), Finset.filter_or]
    refine Finset.card_union_of_disjoint ?_
    rw [Finset.disjoint_left]
    intro j hj1 hj2
    rcases Finset.mem_filter.mp hj1 with ⟨-, h1⟩
    rcases Finset.mem_filter.mp hj2 with ⟨-, h2⟩
    omega
  unfold rankOf
  rw [hsplit]
  push_cast
  ring

/-- C2: the migration's relational rank formula (`rank_expr`) computes, for
every 4-tuple of integer scores and every slot, exactly the rank the
Normalizer's sort in `extract_row` (`extractRanks`) assigns to that slot. -/
theorem claim_C2_rank_expr_refines_sort (s : Fin 4 → Int) (i : Fin 4) :
    rank_expr (fun j => Val.int (s j)) i = (extractRanks s i : Int) := by
  rw [rank_expr_eq_rankOf, extractRanks_eq_rankOf]

/-! ### Rejection conditions of `extract_row` -/

theorem resolveMode_eq_none_iff (g : RawGame) (mo : Option Int) :
    resolveMode g mo = none ↔ ((g.modeId = none ∧ mo = none) ∨ g.modeId = some Loose.bad) := by
  rcases hm : g.modeId with _ | v
  · simp [resolveMode, hm]
  · rcases v with n | _ <;> simp [resolveMode, hm, coerce]

theorem resolveStart_eq_none_iff (g : RawGame) :
    resolveStart g = none ↔
      (g.startTime = some Loose.bad
        ∨ (g.startTime = none ∧ (g.endTime = some Loose.bad ∨ g.endTime = none))) := by
  rcases hs : g.startTime with _ | v
  · rcases he : g.endTime with _ | w
    · simp [resolveStart, hs, he]
    · rcases w with n | _ <;> simp [resolveStart, hs, he, coerce]
  · rcases v with n | _ <;> simp [resolveStart, hs, coerce]

theorem coercePlayer_eq_none_iff (p : RawPlayer) :
    coercePlayer p = none ↔
      (p.level = some Loose.bad ∨ p.score = some Loose.bad
        ∨ p.gradingScore = some Loose.bad) := by
  rcases p with ⟨(_ | (n1 | _)), (_ | (n2 | _)), (_ | (n3 | _))⟩ <;>
    simp [coercePlayer, coerceD, coerce]

/-- Structural characterization of rejection: `extract_row` returns `none`
exactly when one of its checks fails. -/
theorem extract_row_eq_none_iff (g : RawGame) (mo : Option Int) :
    extract_row g mo = none ↔
      (getGid g = none
        ∨ resolveMode g mo = none
        ∨ resolveStart g = none
        ∨ (g.players.getD []).length ≠ 4
        ∨ ∃ p ∈ g.players.getD [], coercePlayer p = none) := by
  unfold extract_row
  rcases hg : getGid g with _ | gid
  · simp
  · rcases hm : resolveMode g mo with _ | mode
    · simp
    · rcases hs : resolveStart g with _ | st
      · simp
      · rcases hps : g.players.getD [] with
          _ | ⟨p0, _ | ⟨p1, _ | ⟨p2, _ | ⟨p3, _ | ⟨p4, t⟩⟩⟩⟩⟩
        · simp [hps]
        · simp [hps]
        · simp [hps]
        · simp [hps]
        · rcases hc0 : coercePlayer p0 with _ | a0 <;>
            rcases hc1 : coercePlayer p1 with _ | a1 <;>
            rcases hc2 : coercePlayer p2 with _ | a2 <;>
            rcases hc3 : coercePlayer p3 with _ | a3 <;>
            simp [hps, hc0, hc1, hc2, hc3]
        · simp [hps]

theorem coercePlayer_inv (p : RawPlayer) (a : Int × Int × Int)
    (h : coercePlayer p = some a) :
    coerceD p.level = some a.1 ∧ coerceD p.score = some a.2.1
      ∧ coerceD p.gradingScore = some a.2.2 := by
  unfold coercePlayer at h
  repeat' split at h
  any_goals exact Option.noConfusion h
  rw [Option.some.injEq] at h
  subst h
  exact ⟨by assumption, by assumption, by assumption⟩

/-- Inversion of a successful `extract_row`: the four players exist, the
start time is the resolved one, and every metric field of the row is the
(defaulting) coercion of the corresponding raw field. -/
theorem extract_row_some_inv (g : RawGame) (mo : Option Int) (row : Row)
    (h : extract_row g mo = some row) :
    ∃ p0 p1 p2 p3, g.players.getD [] = [p0, p1, p2, p3]
      ∧ resolveStart g = some row.startTime
      ∧ coerceD p0.level = some row.player1_level
      ∧ coerceD p0.score = some row.player1_score
      ∧ coerceD p0.gradingScore = some row.player1_gradingScore
      ∧ coerceD p1.level = some row.player2_level
      ∧ coerceD p1.score = some row.player2_score
      ∧ coerceD p1.gradingScore = some row.player2_gradingScore
      ∧ coerceD p2.level = some row.player3_level
      ∧ coerceD p2.score = some row.player3_score
      ∧ coerceD p2.gradingScore = some row.player3_gradingScore
      ∧ coerceD p3.level = some row.player4_level
      ∧ coerceD p3.score = some row.player4_score
      ∧ coerceD p3.gradingScore = some row.player4_gradingScore := by
  unfold extract_row at h
  repeat' split at h
  any_goals exact Option.noConfusion h
  rw [Option.some.injEq] at h
  subst h
  rename_i hc0 hc1 hc2 hc3
  refine ⟨_, _, _, _, by assumption, by assumption,
    ?_, ?_, ?_, ?_, ?_, ?_, ?_, ?_, ?_, ?_, ?_, ?_⟩
  · exact (coercePlayer_inv _ _ hc0).1
  · exact (coercePlayer_inv _ _ hc0).2.1
  · exact (coercePlayer_inv _ _ hc0).2.2
  · exact (coercePlayer_inv _ _ hc1).1
  · exact (coercePlayer_inv _ _ hc1).2.1
  · exact (coercePlayer_inv _ _ hc1).2.2
  · exact (coercePlayer_inv _ _ hc2).1
  · exact (coercePlayer_inv _ _ hc2).2.1
  · exact (coercePlayer_inv _ _ hc2).2.2
  · exact (coercePlayer_inv _ _ hc3).1
  · exact (coercePlayer_inv _ _ hc3).2.1
  · exact (coercePlayer_inv _ _ hc3).2.2

/-- C6: `extract_row` rejects exactly when the identifier is absent/empty
(both `_id` and `uuid` fail truthiness), or the mode is unresolvable (no
`modeId` and no override), or the player array length is not four, or a field
coercion raises (`modeId` uncoercible; the start-time resolution raises —
uncoercible `startTime`, or absent `startTime` with uncoercible or absent
`endTime`; or an uncoercible player field). Missing numeric player fields
default to 0 rather than rejecting, and a missing start time falls back to
the end-time field. -/
theorem claim_C6_rejection_conditions (g : RawGame) (mo : Option Int) :
    (extract_row g mo = none ↔
      (getGid g = none
        ∨ ((g.modeId = none ∧ mo = none) ∨ g.modeId = some Loose.bad)
        ∨ (g.startTime = some Loose.bad
            ∨ (g.startTime = none ∧ (g.endTime = some Loose.bad ∨ g.endTime = none)))
        ∨ (g.players.getD []).length ≠ 4
        ∨ ∃ p ∈ g.players.getD [],
            p.level = some Loose.bad ∨ p.score = some Loose.bad
              ∨ p.gradingScore = some Loose.bad))
    ∧ (∀ (n : Int) (row : Row), g.startTime = none → g.endTime = some (Loose.intv n) →
        extract_row g mo = some row → row.startTime = n)
    ∧ (∀ (p0 p1 p2 p3 : RawPlayer) (row : Row),
        g.players.getD [] = [p0, p1, p2, p3] → extract_row g mo = some row →
        ((p0.level = none → row.player1_level = 0)
          ∧ (p0.score = none → row.player1_score = 0)
          ∧ (p0.gradingScore = none → row.player1_gradingScore = 0)
          ∧ (p1.level = none → row.player2_level = 0)
          ∧ (p1.score = none → row.player2_score = 0)
          ∧ (p1.gradingScore = none → row.player2_gradingScore = 0)
          ∧ (p2.level = none → row.player3_level = 0)
          ∧ (p2.score = none → row.player3_score = 0)
          ∧ (p2.gradingScore = none → row.player3_gradingScore = 0)
          ∧ (p3.level = none → row.player4_level = 0)
          ∧ (p3.score = none → row.player4_score = 0)
          ∧ (p3.gradingScore = none → row.player4_gradingScore = 0))) := by
  have hzero : ∀ (x : Option Loose) (v : Int), x = none → coerceD x = some v → v = 0 := by
    rintro x v rfl h
    simpa [coerceD] using h.symm
  refine ⟨?_, ?_, ?_⟩
  · rw [extract_row_eq_none_iff, resolveMode_eq_none_iff, resolveStart_eq_none_iff]
    simp only [coercePlayer_eq_none_iff]
  · intro n row hst het h
    rcases extract_row_some_inv g mo row h with
      ⟨q0, q1, q2, q3, -, hres, -, -, -, -, -, -, -, -, -, -, -, -⟩
    simp only [resolveStart, hst, het, coerce, Option.some.injEq] at hres
    omega
  · intro p0 p1 p2 p3 row hps h
    rcases extract_row_some_inv g mo row h with
      ⟨q0, q1, q2, q3, hq, -, h1, h2, h3, h4, h5, h6, h7, h8, h9, h10, h11, h12⟩
    rw [hps] at hq
    simp only [List.cons.injEq, and_true] at hq
    rcases hq with ⟨he0, he1, he2, he3⟩
    subst he0
    subst he1
    subst he2
    subst he3
    exact ⟨fun hn => hzero _ _ hn h1, fun hn => hzero _ _ hn h2, fun hn => hzero _ _ hn h3,
      fun hn => hzero _ _ hn h4, fun hn => hzero _ _ hn h5, fun hn => hzero _ _ hn h6,
      fun hn => hzero _ _ hn h7, fun hn => hzero _ _ hn h8, fun hn => hzero _ _ hn h9,
      fun hn => hzero _ _ hn h10, fun hn => hzero _ _ hn h11, fun hn => hzero _ _ hn h12⟩

/-- A player record with all numeric fields absent. -/
def pW6 : RawPlayer := ⟨none, none, none⟩

/-- A record with no start time (end time 77) and four field-less players. -/
def gW6 : RawGame :=
  { idField := some "w6", uuid := none, modeId := some (Loose.intv 9)
    startTime := none, endTime := some (Loose.intv 77)
    players := some [pW6, pW6, pW6, pW6] }

/-- The row `extract_row` produces for `gW6`: start time from the end-time
fallback, all metrics defaulted to 0, ranks by slot order. -/
def rowW6 : Row :=
  { id := "w6", mode := 9, startTime := 77
    player1_level := 0, player1_score := 0, player1_gradingScore := 0, player1_rank := 1
    player2_level := 0, player2_score := 0, player2_gradingScore := 0, player2_rank := 2
    player3_level := 0, player3_score := 0, player3_gradingScore := 0, player3_rank := 3
    player4_level := 0, player4_score := 0, player4_gradingScore := 0, player4_rank := 4 }

/-- Witness for C6 at the concrete record `gW6`. -/
theorem claim_C6_witness :
    gW6.startTime = none ∧ gW6.endTime = some (Loose.intv 77)
    ∧ gW6.players.getD [] = [pW6, pW6, pW6, pW6]
    ∧ extract_row gW6 none = some rowW6
    ∧ rowW6.startTime = 77 ∧ rowW6.player1_level = 0 := by
  refine ⟨rfl, rfl, rfl, by decide, ?_, ?_⟩
  · exact (claim_C6_rejection_conditions gW6 none).2.1 77 rowW6 rfl rfl (by decide)
  · exact ((claim_C6_rejection_conditions gW6 none).2.2 pW6 pW6 pW6 pW6 rowW6 rfl
      (by decide)).1 rfl

/-! ### The store and `insert_games` -/

/-- `id` is the primary key of the `games` table (`ensure_schema`): a row
with a given identifier is already present exactly when some stored row has
that `id`. -/
def dbHasId (db : List Row) (gid : String) : Bool :=
  db.any (fun r => r.id == gid)

/-- One `INSERT OR IGNORE` statement: a duplicate primary key leaves the
table unchanged with `rowcount` 0, otherwise the row is appended with
`rowcount` 1. -/
def insertOrIgnore (db : List Row) (row : Row) : List Row × Nat :=
  if dbHasId db row.id then (db, 0) else (db ++ [row], 1)

/-- Result of `insert_games`: final table, inserted count, skipped count. -/
structure InsResult where
  db : List Row
  ok : Nat
  skipped : Nat
deriving DecidableEq

/-- `insert_games` from `main.py`: normalize each record and insert it with
`INSERT OR IGNORE`; a rejected record, a duplicate, or a per-row store error
is counted as skipped and processing continues with the next record. -/
def insert_games : List Row → List RawGame → Option Int → InsResult
  | db, [], _ => { db := db, ok := 0, skipped := 0 }
  | db, g :: gs, mo =>
    match extract_row g mo with
    | none =>
      let r := insert_games db gs mo
      { r with skipped := r.skipped + 1 }
    | some row =>
      let step := insertOrIgnore db row
      let r := insert_games step.1 gs mo
      if 0 < step.2 then { r with ok := r.ok + 1 }
      else { r with skipped := r.skipped + 1 }


/-- Unfolding of `insert_games` on an accepted record: a present primary key
gives a skip, an absent one appends the row and counts an insert. -/
theorem insert_games_cons_some (db : List Row) (g : RawGame) (gs : List RawGame)
    (mo : Option Int) (row : Row) (hx : extract_row g mo = some row) :
    insert_games db (g :: gs) mo =
      if dbHasId db row.id then
        { insert_games db gs mo with skipped := (insert_games db gs mo).skipped + 1 }
      else
        { insert_games (db ++ [row]) gs mo with
            ok := (insert_games (db ++ [row]) gs mo).ok + 1 } := by
  by_cases hd : dbHasId db row.id
  · simp only [insert_games, hx, insertOrIgnore, if_pos hd]
    norm_num
  · simp only [insert_games, hx, insertOrIgnore, if_neg hd]
    norm_num

/-- Unfolding of `insert_games` on a rejected record. -/
theorem insert_games_cons_none (db : List Row) (g : RawGame) (gs : List RawGame)
    (mo : Option Int) (hx : extract_row g mo = none) :
    insert_games db (g :: gs) mo =
      { insert_games db gs mo with skipped := (insert_games db gs mo).skipped + 1 } := by
  simp only [insert_games, hx]

/-- C9: `insert_games` counts every input record exactly once — inserted plus
skipped equals the batch size — never aborts partway, and the inserted count
equals the number of rows actually added to the table. -/
theorem claim_C9_insert_games_counts (db : List Row) (gs : List RawGame) (mo : Option Int) :
    (insert_games db gs mo).ok + (insert_games db gs mo).skipped = gs.length
    ∧ (insert_games db gs mo).db.length = db.length + (insert_games db gs mo).ok := by
  induction gs generalizing db with
  | nil => simp [insert_games]
  | cons g gs ih =>
    rcases hx : extract_row g mo with _ | row
    · have h := ih db
      rw [insert_games_cons_none db g gs mo hx]
      simp only [List.length_cons]
      constructor <;> omega
    · rw [insert_games_cons_some db g gs mo row hx]
      by_cases hd : dbHasId db row.id
      · have h := ih db
        rw [if_pos hd]
        simp only [List.length_cons]
        constructor <;> omega
      · have h := ih (db ++ [row])
        rw [if_neg hd]
        simp only [List.length_cons, List.length_append, List.length_nil] at h ⊢
        constructor <;> omega

/-- Ids present in the table stay present across an `insert_games` run. -/
theorem insert_games_mono (db : List Row) (gs : List RawGame) (mo : Option Int)
    (x : String) (h : dbHasId db x = true) :
    dbHasId (insert_games db gs mo).db x = true := by
  induction gs generalizing db with
  | nil => simpa [insert_games]
  | cons g gs ih =>
    rcases hx : extract_row g mo with _ | row
    · rw [insert_games_cons_none db g gs mo hx]
      exact ih db h
    · rw [insert_games_cons_some db g gs mo row hx]
      by_cases hd : dbHasId db row.id
      · rw [if_pos hd]
        exact ih db h
      · rw [if_neg hd]
        refine ih (db ++ [row]) ?_
        unfold dbHasId at h ⊢
        simp only [List.any_append, Bool.or_eq_true]
        exact Or.inl h

/-- After an `insert_games` run, the identifier of every accepted record of
the batch is present in the table. -/
theorem insert_games_covers (db : List Row) (gs : List RawGame) (mo : Option Int) :
    ∀ g ∈ gs, ∀ row : Row, extract_row g mo = some row →
      dbHasId (insert_games db gs mo).db row.id = true := by
  induction gs generalizing db with
  | nil => intro g hg; simp at hg
  | cons g0 gs ih =>
    intro g hg row hrow
    rcases List.mem_cons.mp hg with rfl | hmem
    · rw [insert_games_cons_some db g gs mo row hrow]
      by_cases hd : dbHasId db row.id
      · rw [if_pos hd]
        exact insert_games_mono db gs mo row.id hd
      · rw [if_neg hd]
        refine insert_games_mono (db ++ [row]) gs mo row.id ?_
        unfold dbHasId
        simp [List.any_append]
    · rcases hx : extract_row g0 mo with _ | row0
      · rw [insert_games_cons_none db g0 gs mo hx]
        exact ih db g hmem row hrow
      · rw [insert_games_cons_some db g0 gs mo row0 hx]
        by_cases hd : dbHasId db row0.id
        · rw [if_pos hd]
          exact ih db g hmem row hrow
        · rw [if_neg hd]
          exact ih (db ++ [row0]) g hmem row hrow

/-- A batch whose accepted identifiers are all already present inserts
nothing: the table is unchanged, zero inserted, everything skipped. -/
theorem insert_games_noop (db : List Row) (gs : List RawGame) (mo : Option Int)
    (h : ∀ g ∈ gs, ∀ row : Row, extract_row g mo = some row → dbHasId db row.id = true) :
    insert_games db gs mo = { db := db, ok := 0, skipped := gs.length } := by
  induction gs generalizing db with
  | nil => simp [insert_games]
  | cons g gs ih =>
    rcases hx : extract_row g mo with _ | row
    · rw [insert_games_cons_none db g gs mo hx]
      rw [ih db (fun g2 hg2 => h g2 (List.mem_cons_of_mem g hg2))]
      rfl
    · rw [insert_games_cons_some db g gs mo row hx]
      have hd : dbHasId db row.id = true := h g (List.mem_cons_self g gs) row hx
      rw [if_pos hd]
      rw [ih db (fun g2 hg2 => h g2 (List.mem_cons_of_mem g hg2))]
      rfl

/-- C7: ingestion is idempotent — re-inserting the same batch leaves the
table unchanged and reports zero inserted with every record skipped; after
the first run every accepted record's identifier is present as primary key,
which is why the second run skips it. -/
theorem claim_C7_insert_idempotent (db : List Row) (gs : List RawGame) (mo : Option Int) :
    insert_games (insert_games db gs mo).db gs mo =
      { db := (insert_games db gs mo).db, ok := 0, skipped := gs.length }
    ∧ (∀ g ∈ gs, ∀ row : Row, extract_row g mo = some row →
        dbHasId (insert_games db gs mo).db row.id = true) := by
  refine ⟨?_, insert_games_covers db gs mo⟩
  exact insert_games_noop _ gs mo (insert_games_covers db gs mo)

/-! ### Target-count mode: `insert_games_capped` and the recent-mode loop -/

/-- Result of one `insert_games_capped` page: final table, inserted count,
skipped count, whether the cap was reached, how many inputs were consumed,
and the updated in-memory seen-identifier set. -/
structure CapResult where
  db : List Row
  inserted : Nat
  skipped : Nat
  cap_reached : Bool
  processed : Nat
  seen : Finset String

/-- `gid is not None and gid in local_seen` (`insert_games_capped`). -/
def seenHit (g : RawGame) (seen : Finset String) : Bool :=
  match gidRaw g with
  | some gid => decide (gid ∈ seen)
  | none => false

/-- `if gid is not None: local_seen.add(gid)` after a successful execute. -/
def seenAdd (g : RawGame) (seen : Finset String) : Finset String :=
  match gidRaw g with
  | some gid => insert gid seen
  | none => seen

/-- `insert_games_capped` from `main.py`: insert records in order until
`remaining` inserts succeed or the page ends. A record whose raw identifier
is already in the seen set is skipped outright; otherwise it is normalized
(rejects are skipped), inserted with `INSERT OR IGNORE` (duplicates are
skipped but still recorded as seen), and each successful insert decrements
`remaining`; when it reaches zero the loop breaks with `cap_reached`. -/
def insert_games_capped :
    List Row → List RawGame → Option Int → Int → Finset String → CapResult
  | db, [], _, _, seen =>
    { db := db, inserted := 0, skipped := 0, cap_reached := false, processed := 0
      seen := seen }
  | db, g :: gs, mo, rem, seen =>
    if seenHit g seen then
      let r := insert_games_capped db gs mo rem seen
      { r with skipped := r.skipped + 1, processed := r.processed + 1 }
    else
      match extract_row g mo with
      | none =>
        let r := insert_games_capped db gs mo rem seen
        { r with skipped := r.skipped + 1, processed := r.processed + 1 }
      | some row =>
        let step := insertOrIgnore db row
        let seen2 := seenAdd g seen
        if 0 < step.2 then
          if rem - 1 ≤ 0 then
            { db := step.1, inserted := 1, skipped := 0, cap_reached := true
              processed := 1, seen := seen2 }
          else
            let r := insert_games_capped step.1 gs mo (rem - 1) seen2
            { r with inserted := r.inserted + 1, processed := r.processed + 1 }
        else
          let r := insert_games_capped step.1 gs mo rem seen2
          { r with skipped := r.skipped + 1, processed := r.processed + 1 }

theorem insert_games_capped_cons_seen (db : List Row) (g : RawGame) (gs : List RawGame)
    (mo : Option Int) (rem : Int) (seen : Finset String)
    (h : seenHit g seen = true) :
    insert_games_capped db (g :: gs) mo rem seen =
      { insert_games_capped db gs mo rem seen with
          skipped := (insert_games_capped db gs mo rem seen).skipped + 1
          processed := (insert_games_capped db gs mo rem seen).processed + 1 } := by
  simp only [insert_games_capped, h, if_true]

theorem insert_games_capped_cons_rej (db : List Row) (g : RawGame) (gs : List RawGame)
    (mo : Option Int) (rem : Int) (seen : Finset String)
    (hns : seenHit g seen = false) (hx : extract_row g mo = none) :
    insert_games_capped db (g :: gs) mo rem seen =
      { insert_games_capped db gs mo rem seen with
          skipped := (insert_games_capped db gs mo rem seen).skipped + 1
          processed := (insert_games_capped db gs mo rem seen).processed + 1 } := by
  simp only [insert_games_capped, hns, hx, Bool.false_eq_true, if_false]

theorem insert_games_capped_cons_dup (db : List Row) (g : RawGame) (gs : List RawGame)
    (mo : Option Int) (rem : Int) (seen : Finset String) (row : Row)
    (hns : seenHit g seen = false) (hx : extract_row g mo = some row)
    (hd : dbHasId db row.id = true) :
    insert_games_capped db (g :: gs) mo rem seen =
      { insert_games_capped db gs mo rem (seenAdd g seen) with
          skipped := (insert_games_capped db gs mo rem (seenAdd g seen)).skipped + 1
          processed := (insert_games_capped db gs mo rem (seenAdd g seen)).processed + 1 } := by
  simp only [insert_games_capped, hns, hx, Bool.false_eq_true, if_false, insertOrIgnore,
    if_pos hd]
  norm_num

theorem insert_games_capped_cons_ins_cap (db : List Row) (g : RawGame) (gs : List RawGame)
    (mo : Option Int) (rem : Int) (seen : Finset String) (row : Row)
    (hns : seenHit g seen = false) (hx : extract_row g mo = some row)
    (hd : dbHasId db row.id = false) (hr : rem - 1 ≤ 0) :
    insert_games_capped db (g :: gs) mo rem seen =
      { db := db ++ [row], inserted := 1, skipped := 0, cap_reached := true
        processed := 1, seen := seenAdd g seen } := by
  simp only [insert_games_capped, hns, hx, Bool.false_eq_true, if_false, insertOrIgnore,
    Bool.not_eq_true, hd, if_pos hr]
  norm_num

theorem insert_games_capped_cons_ins (db : List Row) (g : RawGame) (gs : List RawGame)
    (mo : Option Int) (rem : Int) (seen : Finset String) (row : Row)
    (hns : seenHit g seen = false) (hx : extract_row g mo = some row)
    (hd : dbHasId db row.id = false) (hr : ¬(rem - 1 ≤ 0)) :
    insert_games_capped db (g :: gs) mo rem seen =
      { insert_games_capped (db ++ [row]) gs mo (rem - 1) (seenAdd g seen) with
          inserted := (insert_games_capped (db ++ [row]) gs mo (rem - 1) (seenAdd g seen)).inserted + 1
          processed := (insert_games_capped (db ++ [row]) gs mo (rem - 1) (seenAdd g seen)).processed + 1 } := by
  simp only [insert_games_capped, hns, hx, Bool.false_eq_true, if_false, insertOrIgnore,
    Bool.not_eq_true, hd, if_neg hr]
  norm_num

/-- A page never inserts more than the remaining cap. -/
theorem insert_games_capped_le (gs : List RawGame) :
    ∀ (db : List Row) (mo : Option Int) (rem : Int) (seen : Finset String),
      1 ≤ rem → ((insert_games_capped db gs mo rem seen).inserted : Int) ≤ rem := by
  induction gs with
  | nil =>
    intro db mo rem seen h1
    simp only [insert_games_capped]
    omega
  | cons g gs ih =>
    intro db mo rem seen h1
    by_cases hns : seenHit g seen
    · rw [insert_games_capped_cons_seen db g gs mo rem seen hns]
      exact ih db mo rem seen h1
    · rcases hx : extract_row g mo with _ | row
      · rw [insert_games_capped_cons_rej db g gs mo rem seen
          (Bool.not_eq_true _ ▸ hns) hx]
        exact ih db mo rem seen h1
      · by_cases hd : dbHasId db row.id
        · rw [insert_games_capped_cons_dup db g gs mo rem seen row
            (Bool.not_eq_true _ ▸ hns) hx hd]
          exact ih db mo rem (seenAdd g seen) h1
        · by_cases hr : rem - 1 ≤ 0
          · rw [insert_games_capped_cons_ins_cap db g gs mo rem seen row
              (Bool.not_eq_true _ ▸ hns) hx (Bool.not_eq_true _ ▸ hd) hr]
            simp only
            omega
          · rw [insert_games_capped_cons_ins db g gs mo rem seen row
              (Bool.not_eq_true _ ▸ hns) hx (Bool.not_eq_true _ ▸ hd) hr]
            have h2 := ih (db ++ [row]) mo (rem - 1) (seenAdd g seen) (by omega)
            simp only
            push_cast
            omega

/-- When a page reports the cap as reached, it inserted exactly the
remaining count. -/
theorem insert_games_capped_cap_exact (gs : List RawGame) :
    ∀ (db : List Row) (mo : Option Int) (rem : Int) (seen : Finset String),
      1 ≤ rem → (insert_games_capped db gs mo rem seen).cap_reached = true →
      ((insert_games_capped db gs mo rem seen).inserted : Int) = rem := by
  induction gs with
  | nil =>
    intro db mo rem seen h1 hcap
    simp only [insert_games_capped] at hcap
    exact absurd hcap (by simp)
  | cons g gs ih =>
    intro db mo rem seen h1 hcap
    by_cases hns : seenHit g seen
    · rw [insert_games_capped_cons_seen db g gs mo rem seen hns] at hcap ⊢
      exact ih db mo rem seen h1 hcap
    · rcases hx : extract_row g mo with _ | row
      · rw [insert_games_capped_cons_rej db g gs mo rem seen
          (Bool.not_eq_true _ ▸ hns) hx] at hcap ⊢
        exact ih db mo rem seen h1 hcap
      · by_cases hd : dbHasId db row.id
        · rw [insert_games_capped_cons_dup db g gs mo rem seen row
            (Bool.not_eq_true _ ▸ hns) hx hd] at hcap ⊢
          exact ih db mo rem (seenAdd g seen) h1 hcap
        · by_cases hr : rem - 1 ≤ 0
          · rw [insert_games_capped_cons_ins_cap db g gs mo rem seen row
              (Bool.not_eq_true _ ▸ hns) hx (Bool.not_eq_true _ ▸ hd) hr]
            simp only
            omega
          · rw [insert_games_capped_cons_ins db g gs mo rem seen row
              (Bool.not_eq_true _ ▸ hns) hx (Bool.not_eq_true _ ▸ hd) hr] at hcap ⊢
            have h2 := ih (db ++ [row]) mo (rem - 1) (seenAdd g seen) (by omega) hcap
            simp only at h2 ⊢
            push_cast
            omega

/-- The recent-mode page loop of `fetch_and_store` (`main.py`): before each
page, `remaining = max(0, recent - total_inserted)` stops the run when the
target is met; an empty page stops the run; otherwise the page is inserted
with `insert_games_capped` (override mode, shared seen set) and the run
stops when the page reports the cap reached. Pagination bookkeeping (the
cursor) is independent of the counts and is modelled separately. -/
def run_recent (mode recent : Int) :
    List (List RawGame) → List Row → Finset String → Int → List Row × Int
  | [], db, _, total => (db, total)
  | page :: rest, db, seen, total =>
    if max 0 (recent - total) ≤ 0 then (db, total)
    else if page.isEmpty then (db, total)
    else
      let r := insert_games_capped db page (some mode) (max 0 (recent - total)) seen
      if r.cap_reached then (r.db, total + (r.inserted : Int))
      else run_recent mode recent rest r.db r.seen (total + (r.inserted : Int))

/-- The running total never exceeds the target. -/
theorem run_recent_le (mode recent : Int) (pages : List (List RawGame)) :
    ∀ (db : List Row) (seen : Finset String) (total : Int), total ≤ recent →
      (run_recent mode recent pages db seen total).2 ≤ recent := by
  induction pages with
  | nil =>
    intro db seen total h
    simpa [run_recent] using h
  | cons page rest ih =>
    intro db seen total h
    by_cases h0 : max 0 (recent - total) ≤ 0
    · simp only [run_recent, if_pos h0]
      exact h
    · simp only [run_recent, if_neg h0]
      by_cases hemp : page.isEmpty
      · simp only [hemp, if_true]
        exact h
      · simp only [hemp, Bool.false_eq_true, if_false]
        have hle := insert_games_capped_le page db (some mode) (max 0 (recent - total))
          seen (by omega)
        split
        · simp only
          omega
        · exact ih _ _ _ (by omega)

/-- C4: in target-count (recent N) mode, for every N > 0 and every page
sequence the total of inserted rows never exceeds N; a run whose total has
reached N performs no further page; a page that reports the cap inserted
exactly the remaining amount (so the run stops exactly at N); and a record
whose identifier is already in the run's seen set is skipped — counted as
skipped, nothing inserted, table and seen set untouched by it. -/
theorem claim_C4_target_count_cap (N : Int) (hN : 0 < N) (pages : List (List RawGame))
    (db0 : List Row) (mode : Int) :
    (run_recent mode N pages db0 ∅ 0).2 ≤ N
    ∧ (∀ (page : List RawGame) (rest : List (List RawGame)) (db : List Row)
        (seen : Finset String) (total : Int), N ≤ total →
          run_recent mode N (page :: rest) db seen total = (db, total))
    ∧ (∀ (db : List Row) (gs : List RawGame) (mo : Option Int) (rem : Int)
        (seen : Finset String) (g : RawGame) (gid : String),
          gidRaw g = some gid → gid ∈ seen →
          (insert_games_capped db (g :: gs) mo rem seen).inserted =
            (insert_games_capped db gs mo rem seen).inserted
          ∧ (insert_games_capped db (g :: gs) mo rem seen).skipped =
            (insert_games_capped db gs mo rem seen).skipped + 1
          ∧ (insert_games_capped db (g :: gs) mo rem seen).db =
            (insert_games_capped db gs mo rem seen).db
          ∧ (insert_games_capped db (g :: gs) mo rem seen).seen =
            (insert_games_capped db gs mo rem seen).seen)
    ∧ (∀ (db : List Row) (gs : List RawGame) (mo : Option Int) (rem : Int)
        (seen : Finset String), 1 ≤ rem →
          (insert_games_capped db gs mo rem seen).cap_reached = true →
          ((insert_games_capped db gs mo rem seen).inserted : Int) = rem) := by
  refine ⟨run_recent_le mode N pages db0 ∅ 0 (by omega), ?_, ?_, ?_⟩
  · intro page rest db seen total htot
    simp only [run_recent, if_pos (show max 0 (N - total) ≤ 0 by omega)]
  · intro db gs mo rem seen g gid hg hmem
    have hhit : seenHit g seen = true := by
      simp [seenHit, hg, hmem]
    rw [insert_games_capped_cons_seen db g gs mo rem seen hhit]
    exact ⟨rfl, rfl, rfl, rfl⟩
  · intro db gs mo rem seen h1 hcap
    exact insert_games_capped_cap_exact gs db mo rem seen h1 hcap

/-- Witness for C4 at N = 1 with the single page `[gEx]`. -/
theorem claim_C4_witness :
    (0 : Int) < 1
    ∧ ((run_recent 12 1 [[gEx]] [] ∅ 0).2 ≤ 1
      ∧ (∀ (page : List RawGame) (rest : List (List RawGame)) (db : List Row)
          (seen : Finset String) (total : Int), (1 : Int) ≤ total →
            run_recent 12 1 (page :: rest) db seen total = (db, total))
      ∧ (∀ (db : List Row) (gs : List RawGame) (mo : Option Int) (rem : Int)
          (seen : Finset String) (g : RawGame) (gid : String),
            gidRaw g = some gid → gid ∈ seen →
            (insert_games_capped db (g :: gs) mo rem seen).inserted =
              (insert_games_capped db gs mo rem seen).inserted
            ∧ (insert_games_capped db (g :: gs) mo rem seen).skipped =
              (insert_games_capped db gs mo rem seen).skipped + 1
            ∧ (insert_games_capped db (g :: gs) mo rem seen).db =
              (insert_games_capped db gs mo rem seen).db
            ∧ (insert_games_capped db (g :: gs) mo rem seen).seen =
              (insert_games_capped db gs mo rem seen).seen)
      ∧ (∀ (db : List Row) (gs : List RawGame) (mo : Option Int) (rem : Int)
          (seen : Finset String), 1 ≤ rem →
            (insert_games_capped db gs mo rem seen).cap_reached = true →
            ((insert_games_capped db gs mo rem seen).inserted : Int) = rem)) :=
  ⟨by norm_num, claim_C4_target_count_cap 1 (by norm_num) [[gEx]] [] 12⟩

/-! ### Pagination cursor arithmetic (`fetch_and_store`) -/

/-- `to_ms` from `main.py`: values at or above `10^12` are treated as
milliseconds, smaller values as seconds to convert. -/
def to_ms (x : Int) : Int :=
  if x ≥ 10 ^ 12 then x else x * 1000

/-- `to_seconds` from `main.py`: values at or above `10^12` are treated as
milliseconds and floor-divided by 1000 (Python `//`; `Int` division by the
positive constant 1000 is the same floor division). -/
def to_seconds (x : Int) : Int :=
  if x ≥ 10 ^ 12 then x / 1000 else x

/-- The cursor update at the end of one page of `fetch_and_store`: the
proposed next cursor is the page's oldest start time in milliseconds minus
one; the progress guard replaces it by a one-second step back whenever it is
not strictly below the current cursor at second resolution. -/
def next_cursor (current_end oldest_start_sec : Int) : Int :=
  if to_seconds (to_ms oldest_start_sec - 1) ≥ to_seconds current_end then
    (if to_seconds current_end * 1000 - 1000 ≥ current_end then current_end - 1000
     else to_seconds current_end * 1000 - 1000)
  else to_ms oldest_start_sec - 1

/-- The cursor sequence of a run whose page oracle `f` reports the oldest
start time of page `n`, starting from the window end `e`. -/
def cursorIter (f : Nat → Int) (e : Int) : Nat → Int
  | 0 => e
  | n + 1 => next_cursor (cursorIter f e n) (f n)

/-- The cursor strictly decreases whenever the proposed next cursor and the
current cursor are not on opposite sides of the `10^12` unit-heuristic
threshold (proposed above, current below). -/
theorem next_cursor_lt (ce o : Int) (h : to_ms o - 1 < 10 ^ 12 ∨ 10 ^ 12 ≤ ce) :
    next_cursor ce o < ce := by
  unfold next_cursor
  split
  · split
    · omega
    · rename_i hfb
      omega
  · rename_i hguard
    unfold to_seconds at hguard
    rcases h with h | h <;>
      (split at hguard <;> (try split at hguard) <;> omega)

/-- C3 (amended): provided every step keeps the proposed next cursor below
the `10^12` millisecond-heuristic threshold or the current cursor at or
above it, the cursor strictly decreases after every non-empty page, and the
pagination loop's cursor falls below any window start in finitely many
steps (at most `end − start + 1`). Without that side condition the cursor
can increase and even cycle (see the counterexample). -/
theorem claim_C3_pagination_terminates :
    (∀ ce o : Int, (to_ms o - 1 < 10 ^ 12 ∨ 10 ^ 12 ≤ ce) → next_cursor ce o < ce)
    ∧ (∀ (f : Nat → Int) (e s : Int),
        (∀ n, to_ms (f n) - 1 < 10 ^ 12 ∨ 10 ^ 12 ≤ cursorIter f e n) →
        ∃ N : Nat, cursorIter f e N < s) := by
  refine ⟨next_cursor_lt, ?_⟩
  intro f e s hside
  have hdec : ∀ n : Nat, cursorIter f e n ≤ e - n := by
    intro n
    induction n with
    | zero => simp [cursorIter]
    | succ k ih =>
      have h2 : cursorIter f e (k + 1) < cursorIter f e k :=
        next_cursor_lt (cursorIter f e k) (f k) (hside k)
      push_cast
      push_cast at ih
      omega
  by_cases hes : e < s
  · exact ⟨0, by simpa [cursorIter] using hes⟩
  · refine ⟨(e - s + 1).toNat, ?_⟩
    have hN := hdec (e - s + 1).toNat
    have hcast : (((e - s + 1).toNat : Nat) : Int) = e - s + 1 :=
      Int.toNat_of_nonneg (by omega)
    omega

/-- Counterexample to C3 as stated: with current cursor `10^12 − 1000` and a
page whose oldest start time is `10^12 + 1000`, the next cursor is
`10^12 + 999` — strictly larger — and with every page like that the cursor
returns to its starting value every two steps, so the loop never passes the
window start. -/
theorem claim_C3_counterexample :
    next_cursor (10 ^ 12 - 1000) (10 ^ 12 + 1000) = 10 ^ 12 + 999
    ∧ ¬(next_cursor (10 ^ 12 - 1000) (10 ^ 12 + 1000) < 10 ^ 12 - 1000)
    ∧ cursorIter (fun _ => (10 : Int) ^ 12 + 1000) (10 ^ 12 - 1000) 2 = 10 ^ 12 - 1000 :=
  ⟨by decide, by decide, by decide⟩

/-- Witness for the amended C3 at a concrete run: constant pages with oldest
start time 3 seconds, window end 10 ms. -/
theorem claim_C3_witness :
    next_cursor 10 3 < 10 ∧ ∃ N : Nat, cursorIter (fun _ => 3) 10 N < 0 := by
  have h3 : to_ms 3 - 1 < 10 ^ 12 := by decide
  refine ⟨claim_C3_pagination_terminates.1 10 3 (Or.inl h3),
    claim_C3_pagination_terminates.2 (fun _ => 3) 10 0 ?_⟩
  intro n
  exact Or.inl h3

/-! ### Schema migration (`ensure_schema`) -/

/-- `INSERT_COLUMNS` from `main.py`: the target `games` layout — 19 columns
(id, mode, startTime, then level/score/gradingScore/rank per player). -/
def INSERT_COLUMNS : List String :=
  ["id", "mode", "startTime",
   "player1_level", "player1_score", "player1_gradingScore", "player1_rank",
   "player2_level", "player2_score", "player2_gradingScore", "player2_rank",
   "player3_level", "player3_score", "player3_gradingScore", "player3_rank",
   "player4_level", "player4_score", "player4_gradingScore", "player4_rank"]

/-- The four rank columns of the target layout. -/
def rank_cols : List String :=
  ["player1_rank", "player2_rank", "player3_rank", "player4_rank"]

/-- The fifteen non-rank target columns. The migration's SELECT references
all of them by name unconditionally (directly, and the four score columns
again inside `rank_expr`), so they must exist in the old table. -/
def nonrank_cols : List String :=
  INSERT_COLUMNS.filter (fun c => decide (c ∉ rank_cols))

/-- The score column names, by slot, as used inside `rank_expr`. -/
def score_col : Fin 4 → String :=
  !["player1_score", "player2_score", "player3_score", "player4_score"]

/-- A `games` table as the migration sees it: a column list and rows mapping
column names to cell values. -/
structure Table where
  cols : List String
  rows : List (String → Val)

/-- The derived rank cell `rank_expr(i)` evaluated on a row's score cells. -/
def derivedRank (r : String → Val) (i : Fin 4) : Val :=
  Val.int (rank_expr (fun j => r (score_col j)) i)

/-- One row of the migration's `INSERT INTO games_new … SELECT …`: rank
columns are copied when present in the old table and otherwise derived via
`rank_expr`; every other target column is copied by name. -/
def migrate_row (oldCols : List String) (r : String → Val) : String → Val := fun c =>
  if c = "player1_rank" then (if "player1_rank" ∈ oldCols then r c else derivedRank r 0)
  else if c = "player2_rank" then (if "player2_rank" ∈ oldCols then r c else derivedRank r 1)
  else if c = "player3_rank" then (if "player3_rank" ∈ oldCols then r c else derivedRank r 2)
  else if c = "player4_rank" then (if "player4_rank" ∈ oldCols then r c else derivedRank r 3)
  else if c ∈ INSERT_COLUMNS then r c
  else Val.null

/-- The migration step of `ensure_schema` on an existing `games` table: a
table already in the exact target column order is left alone; otherwise the
shadow-table copy runs, which fails (`none` — the SELECT names a missing
column and the statement errors) unless every non-rank target column exists
in the old table. -/
def migrate (t : Table) : Option Table :=
  if t.cols = INSERT_COLUMNS then some t
  else if nonrank_cols.all (fun c => decide (c ∈ t.cols)) then
    some { cols := INSERT_COLUMNS, rows := t.rows.map (migrate_row t.cols) }
  else none

/-- C5 (amended): for an existing table whose column list differs from the
target layout but contains every non-rank target column, the migration
succeeds and yields exactly one output row per input row; each non-rank
column value is copied unchanged, and each rank column that already existed
is copied unchanged rather than re-derived. -/
theorem claim_C5_migration_preserves (t : Table) (hdiff : t.cols ≠ INSERT_COLUMNS)
    (hsub : ∀ c ∈ nonrank_cols, c ∈ t.cols) :
    ∃ t2, migrate t = some t2
      ∧ t2.cols = INSERT_COLUMNS
      ∧ t2.rows.length = t.rows.length
      ∧ t2.rows = t.rows.map (migrate_row t.cols)
      ∧ (∀ r : String → Val, ∀ c ∈ nonrank_cols, migrate_row t.cols r c = r c)
      ∧ (∀ r : String → Val, ∀ c ∈ rank_cols, c ∈ t.cols → migrate_row t.cols r c = r c) := by
  have hall : nonrank_cols.all (fun c => decide (c ∈ t.cols)) = true := by
    rw [List.all_eq_true]
    intro c hc
    simpa using hsub c hc
  have hmig : migrate t =
      some { cols := INSERT_COLUMNS, rows := t.rows.map (migrate_row t.cols) } := by
    unfold migrate
    rw [if_neg hdiff, if_pos hall]
  refine ⟨_, hmig, rfl, by simp, rfl, ?_, ?_⟩
  · intro r c hc
    rcases List.mem_filter.mp hc with ⟨hcI, hcR⟩
    simp only [decide_eq_true_eq] at hcR
    have h1 : c ≠ "player1_rank" := fun he => hcR (by simp [rank_cols, he])
    have h2 : c ≠ "player2_rank" := fun he => hcR (by simp [rank_cols, he])
    have h3 : c ≠ "player3_rank" := fun he => hcR (by simp [rank_cols, he])
    have h4 : c ≠ "player4_rank" := fun he => hcR (by simp [rank_cols, he])
    simp [migrate_row, h1, h2, h3, h4, hcI]
  · intro r c hc hmem
    have hd21 : ("player2_rank" : String) ≠ "player1_rank" := by decide
    have hd31 : ("player3_rank" : String) ≠ "player1_rank" := by decide
    have hd32 : ("player3_rank" : String) ≠ "player2_rank" := by decide
    have hd41 : ("player4_rank" : String) ≠ "player1_rank" := by decide
    have hd42 : ("player4_rank" : String) ≠ "player2_rank" := by decide
    have hd43 : ("player4_rank" : String) ≠ "player3_rank" := by decide
    simp only [rank_cols, List.mem_cons, List.mem_singleton, List.not_mem_nil,
      or_false] at hc
    rcases hc with rfl | rfl | rfl | rfl
    · simp [migrate_row, hmem]
    · simp [migrate_row, hmem, hd21]
    · simp [migrate_row, hmem, hd31, hd32]
    · simp [migrate_row, hmem, hd41, hd42, hd43]

/-- A legacy table whose columns are exactly the non-rank target columns,
with a single all-sevens row. -/
def tW5 : Table :=
  { cols := nonrank_cols, rows := [fun _ => Val.int 7] }

/-- Witness for the amended C5 at the concrete legacy table `tW5`. -/
theorem claim_C5_witness :
    tW5.cols ≠ INSERT_COLUMNS
    ∧ (∃ t2, migrate tW5 = some t2
      ∧ t2.cols = INSERT_COLUMNS
      ∧ t2.rows.length = tW5.rows.length
      ∧ t2.rows = tW5.rows.map (migrate_row tW5.cols)
      ∧ (∀ r : String → Val, ∀ c ∈ nonrank_cols, migrate_row tW5.cols r c = r c)
      ∧ (∀ r : String → Val, ∀ c ∈ rank_cols, c ∈ tW5.cols → migrate_row tW5.cols r c = r c)) :=
  ⟨by decide, claim_C5_migration_preserves tW5 (by decide) (fun c hc => hc)⟩

/-- A one-row legacy table having only an `id` column. -/
def tC5bad : Table :=
  { cols := ["id"], rows := [fun _ => Val.null] }

/-- Counterexample to C5 as stated: the target layout has 19 columns, not
eighteen, and a one-row table whose column set differs from the target but
lacks a non-rank column (here everything but `id`) does not migrate to a
one-row target table at all — the migration's SELECT references missing
columns and fails. -/
theorem claim_C5_counterexample :
    INSERT_COLUMNS.length = 19
    ∧ tC5bad.cols ≠ INSERT_COLUMNS
    ∧ tC5bad.rows.length = 1
    ∧ migrate tC5bad = none := by
  refine ⟨by decide, by decide, rfl, ?_⟩
  unfold migrate
  rw [if_neg (by decide), if_neg (by decide)]

/-! ### `analysis.py`: compare-levels argument validation and exit code -/

/-- Outcome of a Python call: a returned value or an escaping exception. -/
inductive PyOutcome (A : Type) where
  | ok (val : A)
  | raised
deriving DecidableEq

/-- What `do_compare_levels` did about its argument check. -/
structure CompareLevelsOutcome where
  errorReported : Bool
  comparisonPerformed : Bool
deriving DecidableEq

/-- The argument-validation head of `do_compare_levels` (`analysis.py`):
equal levels print an error message to stderr and `return` — normally, with
no exception — without performing the comparison; otherwise the comparison
runs. -/
def do_compare_levels_run (levelA levelB : Int) : PyOutcome CompareLevelsOutcome :=
  if levelA = levelB then
    PyOutcome.ok { errorReported := true, comparisonPerformed := false }
  else
    PyOutcome.ok { errorReported := false, comparisonPerformed := true }

/-- `main` of `analysis.py` around the dispatch: returns exit code 0 when
the subcommand returns, 1 only when an exception escapes. -/
def analysis_main_exit (res : PyOutcome CompareLevelsOutcome) : Int :=
  match res with
  | .ok _ => 0
  | .raised => 1

/-- C8 evidence (code bug): invoking compare-levels with equal levels
(`--level-a 10301 --level-b 10301`) reports the error and skips the
comparison, but `do_compare_levels` returns normally, so `main` returns
exit code 0 — not the non-zero exit the specification requires. -/
theorem claim_C8_equal_levels_exit_zero :
    do_compare_levels_run 10301 10301 =
      PyOutcome.ok { errorReported := true, comparisonPerformed := false }
    ∧ analysis_main_exit (do_compare_levels_run 10301 10301) = 0 :=
  ⟨by decide, by decide⟩

/-! ### `analysis.py`: compare-all and the mode filter -/

/-- The argument record of the reporting CLI, with the fields `where_clause`
and the compare commands read. -/
structure AArgs where
  mode : Option Int
  start_ms : Option Int
  end_ms : Option Int
  level_bin : String
deriving DecidableEq

/-- `bucket_level` from `analysis.py` (`level // 10 * 10` for `level10`). -/
def bucket_level (level : Int) (mode : String) : Int :=
  if mode = "level10" then level / 10 * 10 else level

/-- The WHERE clause of `where_clause`: optional mode equality and the
millisecond window filters converted to seconds (`// 1000`). -/
def where_match (args : AArgs) (r : Row) : Bool :=
  (match args.mode with
    | some m => decide (r.mode = m)
    | none => true)
  && (match args.start_ms with
    | some s => decide (s / 1000 ≤ r.startTime)
    | none => true)
  && (match args.end_ms with
    | some e => decide (r.startTime ≤ e / 1000)
    | none => true)

/-- One per-player entry built by the comparison loops. -/
structure PEntry where
  idx : Nat
  level : Int
  bucket : Int
  score : Int
  grade : Int
  rank : Nat
deriving DecidableEq

/-- The four player entries of one stored row. -/
def rowPlayers (lb : String) (r : Row) : List PEntry :=
  (List.finRange 4).map (fun i =>
    { idx := i.val + 1, level := Row.level r i
      bucket := bucket_level (Row.level r i) lb
      score := Row.score r i, grade := Row.grade r i, rank := Row.rank r i })

/-- The head-to-head pairs one row contributes: the product of its bucket-A
group and bucket-B group, skipping rows where either group is empty. -/
def rowPairs (lb : String) (a b : Int) (r : Row) : List (PEntry × PEntry) :=
  let players := rowPlayers lb r
  let groupA := players.filter (fun p => decide (p.bucket = a))
  let groupB := players.filter (fun p => decide (p.bucket = b))
  if groupA.isEmpty || groupB.isEmpty then []
  else groupA.flatMap (fun pa => groupB.map (fun pb => (pa, pb)))

/-- The integer aggregates of `compute_compare_summary` (`analysis.py`).
The printed averages are these sums divided by `instances` with fixed
decimal formatting; the aggregation itself is over these integers. -/
structure CmpSummary where
  instances : Nat
  a_better : Nat
  b_better : Nat
  sum_rank_diff : Int
  sum_score_diff : Int
  sum_grade_diff : Int
deriving DecidableEq

/-- `compute_compare_summary` from `analysis.py`: `none` for equal buckets
or when no head-to-head instance matches the filters. -/
def compute_compare_summary (db : List Row) (args : AArgs) (level_a level_b : Int) :
    Option CmpSummary :=
  if level_a = level_b then none
  else
    let pairs := (db.filter (where_match args)).flatMap (rowPairs args.level_bin level_a level_b)
    if pairs.length = 0 then none
    else some
      { instances := pairs.length
        a_better := (pairs.filter (fun q => decide (q.1.rank < q.2.rank))).length
        b_better := (pairs.filter (fun q => decide (q.2.rank < q.1.rank))).length
        sum_rank_diff := (pairs.map (fun q => (q.1.rank : Int) - (q.2.rank : Int))).sum
        sum_score_diff := (pairs.map (fun q => q.1.score - q.2.score)).sum
        sum_grade_diff := (pairs.map (fun q => q.1.grade - q.2.grade)).sum }

/-- `range(lo, hi)` over integers. -/
def intRange (lo hi : Int) : List Int :=
  (List.range (hi - lo).toNat).map (fun k => lo + k)

/-- The predefined level-range configurations of `do_compare_all`, each with
its hard-coded mode. -/
def level_configs : List (List Int × List Int × Int) :=
  [ (intRange 10301 10304, intRange 10301 10304 ++ intRange 10401 10404, 9),
    (intRange 10401 10404, intRange 10401 10404 ++ intRange 10501 10504, 12),
    (intRange 10501 10504, intRange 10501 10504 ++ [10701], 16),
    ([10701], intRange 10701 10721, 16) ]

/-- One CSV row written by `do_compare_all`. -/
structure OutRow where
  level_a : Int
  level_b : Int
  mode : Int
  summary : CmpSummary
deriving DecidableEq

/-- The inner double loop of one configuration: all pairs with
`level_a < level_b` that have a non-empty summary. -/
def matchupRows (db : List Row) (args : AArgs) (ra rb : List Int) (m : Int) : List OutRow :=
  ra.flatMap (fun a => rb.filterMap (fun b =>
    if a < b then
      (compute_compare_summary db args a b).map
        (fun s => { level_a := a, level_b := b, mode := m, summary := s })
    else none))

/-- The configuration loop of `do_compare_all`: for each configuration it
saves `args.mode`, overwrites it with the configuration's hard-coded mode,
emits that configuration's rows, and restores `args.mode` in a `finally`. -/
def run_compare_all (db : List Row) :
    AArgs → List (List Int × List Int × Int) → List OutRow × AArgs
  | args, [] => ([], args)
  | args, (ra, rb, m) :: rest =>
    let prev := args.mode
    let args1 := { args with mode := some m }
    let rows := matchupRows db args1 ra rb m
    let args2 := { args1 with mode := prev }
    let res := run_compare_all db args2 rest
    (rows ++ res.1, res.2)

/-- `do_compare_all` from `analysis.py`, over the predefined configs. -/
def do_compare_all (db : List Row) (args : AArgs) : List OutRow × AArgs :=
  run_compare_all db args level_configs

theorem AArgs.set_set (a : AArgs) (x y : Option Int) :
    ({ ({ a with mode := x }) with mode := y } : AArgs) = { a with mode := y } := by
  rcases a with ⟨m, s, e, l⟩
  rfl

theorem AArgs.set_self (a : AArgs) : ({ a with mode := a.mode } : AArgs) = a := by
  rcases a with ⟨m, s, e, l⟩
  rfl

/-- The configuration loop always restores `args.mode`. -/
theorem run_compare_all_restores (db : List Row)
    (cfgs : List (List Int × List Int × Int)) :
    ∀ args : AArgs, (run_compare_all db args cfgs).2 = args := by
  induction cfgs with
  | nil => intro args; rfl
  | cons cfg rest ih =>
    intro args
    rcases cfg with ⟨ra, rb, m⟩
    simp only [run_compare_all]
    rw [ih]

/-- The emitted rows do not depend on the caller's `--mode` filter. -/
theorem run_compare_all_mode_irrelevant (db : List Row)
    (cfgs : List (List Int × List Int × Int)) :
    ∀ (args : AArgs) (m : Option Int),
      (run_compare_all db { args with mode := m } cfgs).1 =
        (run_compare_all db args cfgs).1 := by
  induction cfgs with
  | nil => intro args m; rfl
  | cons cfg rest ih =>
    intro args m
    rcases cfg with ⟨ra, rb, mm⟩
    simp only [run_compare_all, AArgs.set_set]
    rw [ih args m]

/-- C10: `do_compare_all` evaluates every configuration with its hard-coded
mode substituted for the user's `--mode` filter — the emitted rows are
identical whatever initial mode the argument record carries — and after the
run the argument record, including its mode field, is exactly as before. -/
theorem claim_C10_compare_all_mode (db : List Row) (args : AArgs) :
    (do_compare_all db args).2 = args
    ∧ (∀ m : Option Int, (do_compare_all db { args with mode := m }).1 =
        (do_compare_all db args).1)
    ∧ (∀ cfgs : List (List Int × List Int × Int),
        (run_compare_all db args cfgs).2 = args) := by
  refine ⟨run_compare_all_restores db level_configs args, ?_, ?_⟩
  · intro m
    exact run_compare_all_mode_irrelevant db level_configs args m
  · intro cfgs
    exact run_compare_all_restores db cfgs args

/-- Witness for C7 at the concrete one-record batch `[gEx]`. -/
theorem claim_C7_witness :
    insert_games (insert_games [] [gEx] none).db [gEx] none =
      { db := (insert_games [] [gEx] none).db, ok := 0, skipped := 1 }
    ∧ dbHasId (insert_games [] [gEx] none).db rowEx.id = true :=
  ⟨(claim_C7_insert_idempotent [] [gEx] none).1,
    (claim_C7_insert_idempotent [] [gEx] none).2 gEx (List.mem_cons_self gEx [])
      rowEx (by decide)⟩
